import Mathlib

/-!
Verification of the dynamic value-resolution engine and statistics pipeline of
`performance_test_runner.py` (a configurable HTTP load-testing tool).

The Python source is shallowly embedded: pure string/parsing logic becomes
executable Lean functions over `List Char` / `String`, Python `float`
arithmetic is modelled over `ℚ`, code that can raise (`int(...)`, tuple
unpacking, division by zero) returns `Except String _`, and the impure parts
(the HTTP transport, `random`, `uuid`, the clock, the file system) are
abstracted as explicit oracle parameters threaded through the definitions.
Characters are treated as ASCII (the configuration values exercised by the
tool are ASCII; Python's unicode-aware `isdigit`/`isalpha`/`\w` coincide with
the ASCII classes there).
-/

namespace PerfRunner

/-! ## Python-style primitive string helpers -/

/-- ASCII decimal digit test, as used by Python `str.isdigit` on ASCII data. -/
def isAsciiDigit (c : Char) : Bool := '0' ≤ c && c ≤ '9'

/-- Python `str.isdigit()`: nonempty and all digits. -/
def pyIsDigit (s : List Char) : Bool := !s.isEmpty && s.all isAsciiDigit

/-- Python `str.isalpha()`: nonempty and all alphabetic.  Note `'_'` is NOT
alphabetic, which matters for the `$range{...}` symbolic-name check. -/
def pyIsAlpha (s : List Char) : Bool := !s.isEmpty && s.all Char.isAlpha

/-- Python `\w` word character (ASCII): letter, digit or underscore. -/
def isWordChar (c : Char) : Bool := c.isAlpha || isAsciiDigit c || c = '_'

/-- Python whitespace for `str.strip()`. -/
def isPySpace (c : Char) : Bool :=
  c = ' ' || c = '\t' || c = '\n' || c = '\x0d' || c = '\x0b' || c = '\x0c'

/-- Python `str.strip()` on a char list. -/
def pyStrip (s : List Char) : List Char :=
  ((s.dropWhile isPySpace).reverse.dropWhile isPySpace).reverse

/-- Python `str.lstrip('-')`. -/
def lstripMinus (s : List Char) : List Char := s.dropWhile (fun c => c = '-')

/-- Python `str.replace('.', '', 1)`: delete the first dot, if any. -/
def removeFirstDot : List Char → List Char
  | [] => []
  | c :: rest => if c = '.' then rest else c :: removeFirstDot rest

/-- Python `str.split(sep)` for a one-character separator: keeps empty chunks,
`"".split(',') = ['']`. -/
def splitOn (sep : Char) : List Char → List (List Char)
  | [] => [[]]
  | c :: rest =>
    if c = sep then [] :: splitOn sep rest
    else
      match splitOn sep rest with
      | [] => [[c]]
      | h :: t => (c :: h) :: t

/-- One scanning pass of Python `str.replace(old, new)` (all non-overlapping
occurrences, left to right, the replacement text is never rescanned), driven
by explicit fuel so that the kernel can evaluate it.  With `fuel ≥ s.length`
and `old ≠ []` the fuel never runs out. -/
def repGo (old new : List Char) : Nat → List Char → List Char
  | 0, s => s
  | _ + 1, [] => []
  | fuel + 1, c :: s =>
    if !old.isEmpty && old.isPrefixOf (c :: s) then
      new ++ repGo old new fuel ((c :: s).drop old.length)
    else
      c :: repGo old new fuel s

/-- Python `str.replace(old, new)` on char lists (for nonempty `old`; the
engine only ever replaces nonempty `${name}` patterns). -/
def replaceAll (s old new : List Char) : List Char := repGo old new s.length s

/-- Try to match `\${([^}]+)}` at the head of `s`: on success yield the
captured name and the remainder after the closing `}`. -/
def refMatch (s : List Char) : Option (List Char × List Char) :=
  match s with
  | '$' :: '{' :: rest =>
    match rest.dropWhile (fun c => c ≠ '}') with
    | '}' :: tail =>
      if (rest.takeWhile (fun c => c ≠ '}')).isEmpty then none
      else some (rest.takeWhile (fun c => c ≠ '}'), tail)
    | _ => none
  | _ => none

/-- One scanning pass of `re.findall(r'\${([^}]+)}', s)`: at each position try
`refMatch`; on success continue after the match, on failure advance one
character.  Fuel-driven for kernel evaluation; `fuel ≥ s.length` suffices. -/
def fvGo : Nat → List Char → List (List Char)
  | 0, _ => []
  | _ + 1, [] => []
  | fuel + 1, c :: s =>
    match refMatch (c :: s) with
    | some (body, tail) => body :: fvGo fuel tail
    | none => fvGo fuel s

/-- `re.findall(r'\${([^}]+)}', s)`: the list of `${name}` reference names in
`s`, in scanning order. -/
def findVarRefs (s : List Char) : List (List Char) := fvGo s.length s

/-- Value of a digit run, `foldl`-style like Python `int` on digits. -/
def digitsToNat (s : List Char) : Nat :=
  s.foldl (fun a c => a * 10 + (c.toNat - 48)) 0

/-- Python `str.upper()` (ASCII). -/
def pyUpper (s : String) : String := String.mk (s.data.map Char.toUpper)

/-! ## Data model

Configuration values (what YAML loading yields and what flows through
`_resolve_variables`): scalars, ordered mappings and sequences.  Python
`float`s are modelled as rationals. -/

inductive Value where
  | str (s : String)
  | intV (n : Int)
  | ratV (q : ℚ)
  | boolV (b : Bool)
  | noneV
  | dict (fields : List (String × Value))
  | list (elems : List Value)
deriving Inhabited

/-- Python truthiness (`bool(v)`), as used by `or`-chains and `if value:`
tests: `0`, `0.0`, `""`, `False`, `None` and empty containers are falsy. -/
def pyTruthy : Value → Bool
  | .str s => !s.isEmpty
  | .intV n => n ≠ 0
  | .ratV q => q ≠ 0
  | .boolV b => b
  | .noneV => false
  | .dict fields => !fields.isEmpty
  | .list elems => !elems.isEmpty

/-- Python `str(v)` rendering, as used when splicing a looked-up value into a
`${name}` reference.  Strings render as themselves, ints as decimal digits,
booleans as `True`/`False`, `None` as `None`.  The float and container
renderings are approximations (no verified claim depends on them). -/
def pyStr : Value → String
  | .str s => s
  | .intV n => toString n
  | .ratV q => toString q
  | .boolV b => if b then "True" else "False"
  | .noneV => "None"
  | .dict _ => "<dict>"
  | .list _ => "<list>"

/-! ## Value Provider Registry (`ValueProvider.get_provider`)

`get_provider` returns a zero-argument closure.  We split it into a pure
classifier producing a `ProviderSpec` (which closure the code builds — or an
`Except.error` where the Python raises `ValueError`), plus `invokeProvider`,
which evaluates one call of the closure against a randomness oracle. -/

inductive ProviderSpec where
  /-- `lambda: value` — the original value unchanged (non-strings, and the
  fall-through `return lambda: value` at the end of `get_provider`). -/
  | passthru (v : Value)
  /-- `lambda: random.randint(lo, hi)` -/
  | randInt (lo hi : Int)
  /-- `lambda: round(random.uniform(lo, hi), 2)` -/
  | randFloat2 (lo hi : ℚ)
  /-- `lambda: random.choice(opts)` -/
  | choice (opts : List (List Char))
  /-- `lambda: str(uuid.uuid4())` -/
  | uuidP
  /-- `lambda: datetime.now(timezone.utc).isoformat()` -/
  | nowP
  /-- `lambda: ' '.join(['lorem'] * n)` -/
  | lorem (n : Nat)
deriving Inhabited

/-- `re.match(r'\$random\{([^}]+)\}', s)`: anchored at the start, trailing
text ignored; yields the (nonempty) brace body. -/
def matchRandom (s : List Char) : Option (List Char) :=
  if ('$' :: 'r' :: 'a' :: 'n' :: 'd' :: 'o' :: 'm' :: '{' :: []).isPrefixOf s then
    let rest := s.drop 8
    let body := rest.takeWhile (fun c => c ≠ '}')
    match rest.dropWhile (fun c => c ≠ '}') with
    | '}' :: _ => if body.isEmpty then none else some body
    | _ => none
  else none

/-- `re.match(r'\$lorem\{(\d+)\}', s)`: anchored, `$lorem{` then a nonempty
digit run then `}`; yields the digits. -/
def matchLorem (s : List Char) : Option (List Char) :=
  if ('$' :: 'l' :: 'o' :: 'r' :: 'e' :: 'm' :: '{' :: []).isPrefixOf s then
    let rest := s.drop 7
    let ds := rest.takeWhile isAsciiDigit
    if ds.isEmpty then none
    else
      match rest.drop ds.length with
      | '}' :: _ => some ds
      | _ => none
  else none

/-- `re.match(r'\$(\w+)\{([^}]*)\}', s)`: anchored, `$`, a nonempty word-char
run, `{`, a possibly empty non-`}` run, `}`; yields (tag, params). -/
def matchType (s : List Char) : Option (List Char × List Char) :=
  match s with
  | '$' :: rest =>
    let w := rest.takeWhile isWordChar
    if w.isEmpty then none
    else
      match rest.drop w.length with
      | '{' :: rest2 =>
        let p := rest2.takeWhile (fun c => c ≠ '}')
        match rest2.dropWhile (fun c => c ≠ '}') with
        | '}' :: _ => some (w, p)
        | _ => none
      | _ => none
  | _ => none

/-- The numeric-literal test applied to each `$random{...}` token:
`x.strip().lstrip('-').replace('.', '', 1).isdigit()`. -/
def numericCheck (x : List Char) : Bool :=
  pyIsDigit (removeFirstDot (lstripMinus (pyStrip x)))

/-- Python `float(x)` on the shapes that pass `numericCheck` (an optional
run of minus signs, digits with at most one dot): at most one leading minus,
else `ValueError`.  Exact decimal value over `ℚ`. -/
def parsePyFloat (x : List Char) : Except String ℚ :=
  let y := pyStrip x
  let minuses := y.takeWhile (fun c => c = '-')
  let core := y.dropWhile (fun c => c = '-')
  let intPart := core.takeWhile (fun c => c ≠ '.')
  let rest := core.dropWhile (fun c => c ≠ '.')
  let frac := rest.drop 1
  if minuses.length ≤ 1 && (intPart ++ frac).all isAsciiDigit &&
      !(intPart ++ frac).isEmpty && rest.length ≤ frac.length + 1 &&
      frac.all (fun c => c ≠ '.') then
    let mag : ℚ := (digitsToNat (intPart ++ frac) : ℚ) / ((10 : ℚ) ^ frac.length)
    .ok (if minuses.isEmpty then mag else -mag)
  else .error "ValueError: could not convert string to float"

/-- Python `int(x)`: optional surrounding whitespace, one optional sign, a
nonempty digit run (numeric-literal underscores are not modelled). -/
def parsePyInt (x : List Char) : Except String Int :=
  let y := pyStrip x
  let (sign, ds) : Int × List Char :=
    match y with
    | '-' :: rest => (-1, rest)
    | '+' :: rest => (1, rest)
    | _ => (1, y)
  if pyIsDigit ds then .ok (sign * (digitsToNat ds : Int))
  else .error "ValueError: invalid literal for int"

/-- The `$random{...}` branch of `get_provider`, applied to the stripped
comma-separated tokens: a numeric range (float if a dot is present, else
int), or a string-choice provider. -/
def randomBranch (choices : List (List Char)) : Except String ProviderSpec :=
  if choices.length = 2 && choices.all numericCheck then
    if choices.any (fun x => x.contains '.') then
      match choices with
      | [a, b] =>
        match parsePyFloat a, parsePyFloat b with
        | .ok lo, .ok hi => .ok (.randFloat2 lo hi)
        | .error e, _ => .error e
        | _, .error e => .error e
      | _ => .error "unreachable"
    else
      match choices with
      | [a, b] =>
        match parsePyInt a, parsePyInt b with
        | .ok lo, .ok hi => .ok (.randInt lo hi)
        | .error e, _ => .error e
        | _, .error e => .error e
      | _ => .error "unreachable"
  else
    .ok (.choice choices)

/-- `ValueProvider.get_provider` on a string argument.  `Except.error` marks
the points where the Python raises (`int`/`float` conversion failures and the
2-tuple unpacking in the `$range{min,max}` branch). -/
def getProviderStr (s : String) : Except String ProviderSpec :=
  match matchRandom s.data with
  | some body =>
    randomBranch ((splitOn ',' body).map pyStrip)
  | none =>
    if s = "$uuid" then .ok .uuidP
    else if s = "$now" then .ok .nowP
    else
      match matchLorem s.data with
      | some ds => .ok (.lorem (digitsToNat ds))
      | none =>
        match matchType s.data with
        | some (tag, params) =>
          if tag = ('r' :: 'a' :: 'n' :: 'g' :: 'e' :: []) then
            if pyIsAlpha params &&
                (params = "price_range".data || params = "user_age".data) then
              -- dead in practice: both keys contain '_' and fail isalpha()
              .ok (.randInt 10 1000)
            else
              match splitOn ',' params with
              | [a, b] =>
                match parsePyInt a, parsePyInt b with
                | .ok lo, .ok hi => .ok (.randInt lo hi)
                | .error e, _ => .error e
                | _, .error e => .error e
              | _ => .error "ValueError: cannot unpack params into min,max"
          else
            -- includes provider_type == 'random' (bare `pass`, falls through)
            .ok (.passthru (.str s))
        | none => .ok (.passthru (.str s))

/-- `ValueProvider.get_provider`: non-strings always pass through. -/
def getProvider (v : Value) : Except String ProviderSpec :=
  match v with
  | .str s => getProviderStr s
  | v => .ok (.passthru v)

/-- The impure ingredients of one provider invocation, abstracted: the values
the `random` module, `uuid.uuid4()` and the clock would supply. -/
structure RandOracle where
  randint : Int → Int → Int
  uniform : ℚ → ℚ → ℚ
  choiceIdx : Nat → Nat
  uuidStr : String
  nowStr : String

/-- Round half to even on `ℚ` (Python `round` to an integer). -/
def roundHalfEven (q : ℚ) : ℤ :=
  if q - ⌊q⌋ < 1/2 then ⌊q⌋
  else if 1/2 < q - ⌊q⌋ then ⌊q⌋ + 1
  else if Even ⌊q⌋ then ⌊q⌋ else ⌊q⌋ + 1

def pyRound2 (q : ℚ) : ℚ := (roundHalfEven (q * 100) : ℚ) / 100

/-- `' '.join(['lorem'] * n)` -/
def loremJoin : Nat → String
  | 0 => ""
  | 1 => "lorem"
  | n + 2 => loremJoin (n + 1) ++ " lorem"

/-- Evaluate one call of the closure `get_provider` built, against a
randomness oracle (`random.randint`, `round(random.uniform(..), 2)`,
`random.choice`, `uuid`, `now`). -/
def invokeProvider (o : RandOracle) : ProviderSpec → Value
  | .passthru v => v
  | .randInt lo hi => .intV (o.randint lo hi)
  | .randFloat2 lo hi => .ratV (pyRound2 (o.uniform lo hi))
  | .choice opts => .str (String.mk (opts.getD (o.choiceIdx opts.length) []))
  | .uuidP => .str o.uuidStr
  | .nowP => .str o.nowStr
  | .lorem n => .str (loremJoin n)

/-! ## Configuration (`TestConfig`) and the Template Resolver
(`PerformanceTester._resolve_variables`) -/

/-- `TestConfig` (the resolver only reads the four lookup tables; the
numeric knobs are carried for the endpoint/orchestrator embedding).
Mappings are ordered association lists, as Python dicts are. -/
structure TestConfig where
  base_url : String := ""
  num_workers : Nat := 10
  requests_per_endpoint : Nat := 100
  num_test_runs : Nat := 5
  variables_ : List (String × Value) := []  -- `variables` (reserved word in Lean)
  generators : List (String × Value) := []
  datasets : List (String × Value) := []
  ranges : List (String × Value) := []

/-- Python `dict.get(k)`: `None` when absent. -/
def pyGet (table : List (String × Value)) (k : String) : Option Value :=
  (table.find? (fun kv => kv.1 = k)).map (fun kv => kv.2)

/-- Python `a or b` where `a` is a `dict.get` result: `a` if present and
truthy, else `b` (`None` and falsy values both fall through). -/
def pyOrOpt (a : Option Value) (b : Value) : Value :=
  match a with
  | some v => if pyTruthy v then v else b
  | none => b

/-- The `or`-chain of lines 144-150: `variables.get(n) or generators.get(n)
or datasets.get(n) or ranges.get(n) or '${n}'`. -/
def lookupChain (cfg : TestConfig) (name : String) : Value :=
  pyOrOpt (pyGet cfg.variables_ name)
    (pyOrOpt (pyGet cfg.generators name)
      (pyOrOpt (pyGet cfg.datasets name)
        (pyOrOpt (pyGet cfg.ranges name)
          (.str ("$\x7b" ++ name ++ "\x7d")))))

/-- `value.startswith('$')` -/
def startsDollar (s : String) : Bool :=
  match s.data.head? with
  | some c => c = '$'
  | none => false

/-- One iteration of the substitution loop: `result = result.replace(
'${name}', str(var_value))`. -/
def substName (cfg : TestConfig) (result : String) (name : List Char) : String :=
  String.mk (replaceAll result.data ('$' :: '{' :: name ++ ['}'])
    (pyStr (lookupChain cfg (String.mk name))).data)

/-- `_resolve_variables` on a string: the provider branch for strings that
start with `$` (which can raise, via `get_provider`), else the `${name}`
substitution loop over `re.findall`, else the string unchanged. -/
def resolveStr (o : RandOracle) (cfg : TestConfig) (s : String) :
    Except String Value :=
  if startsDollar s then
    (getProviderStr s).map (invokeProvider o)
  else
    let refs := findVarRefs s.data
    if refs.isEmpty then .ok (.str s)
    else .ok (.str (refs.foldl (substName cfg) s))

mutual

/-- `PerformanceTester._resolve_variables`: strings are resolved via
`resolveStr`, dicts and lists are rebuilt recursively (fresh structures —
the Python builds new comprehensions), all other scalars pass through.
Errors raised by `get_provider` propagate. -/
def resolveVariables (o : RandOracle) (cfg : TestConfig) :
    Value → Except String Value
  | .str s => resolveStr o cfg s
  | .dict fields =>
    match resolveFields o cfg fields with
    | .ok fs => .ok (.dict fs)
    | .error e => .error e
  | .list elems =>
    match resolveElems o cfg elems with
    | .ok es => .ok (.list es)
    | .error e => .error e
  | v => .ok v

/-- `{k: self._resolve_variables(v) for k, v in value.items()}` -/
def resolveFields (o : RandOracle) (cfg : TestConfig) :
    List (String × Value) → Except String (List (String × Value))
  | [] => .ok []
  | (k, v) :: rest =>
    match resolveVariables o cfg v with
    | .error e => .error e
    | .ok v' =>
      match resolveFields o cfg rest with
      | .error e => .error e
      | .ok rest' => .ok ((k, v') :: rest')

/-- `[self._resolve_variables(item) for item in value]` -/
def resolveElems (o : RandOracle) (cfg : TestConfig) :
    List Value → Except String (List Value)
  | [] => .ok []
  | v :: rest =>
    match resolveVariables o cfg v with
    | .error e => .error e
    | .ok v' =>
      match resolveElems o cfg rest with
      | .error e => .error e
      | .ok rest' => .ok (v' :: rest')

end

/-! ## Request outcomes and the Endpoint Runner
(`TestResult`, `PerformanceTester.test_endpoint`) -/

/-- The `TestResult` dataclass.  `response_time` (milliseconds) is a rational
(Python float). -/
structure TestResult where
  endpoint : String
  method : String
  success : Bool
  status_code : Option Int
  response_time : ℚ
  error : Option String := none
  request_data : Option Value := none

/-- `PerformanceTester._generate_url`: strip every trailing `/` from the
base, every leading `/` from the path, and join with one `/`. -/
def stripTrailSlash (l : List Char) : List Char :=
  (l.reverse.dropWhile (fun c => c = '/')).reverse

def stripLeadSlash (l : List Char) : List Char :=
  l.dropWhile (fun c => c = '/')

def generateUrl (base_url path : String) : String :=
  String.mk (stripTrailSlash base_url.data) ++ "/" ++
    String.mk (stripLeadSlash path.data)

/-- The `kwargs` set up by `test_endpoint`: the resolved body is attached
(as `json=` or `data=`) only for POST/PUT/PATCH and only when truthy. -/
def bodyKwarg (method : String) (request_data : Value) : Option Value :=
  if (method = "POST" || method = "PUT" || method = "PATCH") &&
      pyTruthy request_data then
    some request_data
  else none

/-- The request loop of `test_endpoint` (lines 225-231): dispatch
`requests_per_endpoint` requests strictly sequentially, threading the
executor's state (`send` abstracts `_send_request`: network and clock;
`time.sleep` affects no outcome and is not modelled). -/
def sendLoop {σ : Type} (send : String → String → Option Value → σ → TestResult × σ)
    (method url : String) (kwargs : Option Value) :
    Nat → σ → List TestResult × σ
  | 0, s => ([], s)
  | n + 1, s =>
    let (r, s1) := send method url kwargs s
    let (rest, s2) := sendLoop send method url kwargs n s1
    (r :: rest, s2)

/-- `PerformanceTester.test_endpoint`: resolve the method and URL, call
`_generate_request_data` ONCE (line 217, before the loop, threading its
randomness state), build `kwargs`, then run the send loop.
`genData` abstracts `self._generate_request_data(endpoint_config)` together
with its internal randomness (state `σ`). -/
def testEndpoint {σ : Type} (requests_per_endpoint : Nat)
    (genData : σ → Value × σ)
    (send : String → String → Option Value → σ → TestResult × σ)
    (methodCfg : Option String) (base_url path : String) (s : σ) :
    List TestResult × σ :=
  let method := pyUpper (methodCfg.getD "GET")
  let url := generateUrl base_url path
  let (request_data, s1) := genData s
  let kwargs := bodyKwarg method request_data
  sendLoop send method url kwargs requests_per_endpoint s1

/-- Modelled from the spec ("resolving a fresh request body from the spec's
raw template" on each of the `requests_per_endpoint` repetitions, §4.4
Endpoint Runner): the same runner but with the body resolved anew inside
every iteration of the loop.  Used only to compare the spec's description of
`test_endpoint` with the code's actual behavior. -/
def testEndpointSpecModel {σ : Type} (requests_per_endpoint : Nat)
    (genData : σ → Value × σ)
    (send : String → String → Option Value → σ → TestResult × σ)
    (methodCfg : Option String) (base_url path : String) (s : σ) :
    List TestResult × σ :=
  let method := pyUpper (methodCfg.getD "GET")
  let url := generateUrl base_url path
  let rec loop : Nat → σ → List TestResult × σ
    | 0, s => ([], s)
    | n + 1, s =>
      let (request_data, s1) := genData s
      let (r, s2) := send method url (bodyKwarg method request_data) s1
      let (rest, s3) := loop n s2
      (r :: rest, s3)
  loop requests_per_endpoint s

/-- A request executor that records the dispatched payload in the outcome
record (the observable `_send_request` exposes in its `request_data`
field), used to observe which body each repetition carries. -/
def recordingSend {σ : Type} (method url : String) (kwargs : Option Value)
    (s : σ) : TestResult × σ :=
  ({ endpoint := url, method := method, success := true,
     status_code := some 200, response_time := 0, error := none,
     request_data := kwargs }, s)

/-! ## Run statistics (`run_tests`, lines 254-268) and the Aggregator
(`aggregate_results`) -/

/-- Python `min(l)` / `max(l)` / `sum(l)/len(l)` on a nonempty list (all
call sites are guarded by nonemptiness checks; `[]` yields the guard's 0). -/
def pyMin : List ℚ → ℚ
  | [] => 0
  | h :: t => t.foldl min h

def pyMax : List ℚ → ℚ
  | [] => 0
  | h :: t => t.foldl max h

/-- The per-run statistics dict built at the end of `run_tests`. -/
structure RunStats where
  total_requests : Nat
  successful_requests : Nat
  failed_requests : Nat
  min_time : ℚ
  max_time : ℚ
  avg_time : ℚ
  response_times : List ℚ
  errors : List (String × Option String)

/-- Lines 254-268 of `run_tests`: statistics over the combined outcome list
of one run (the fan-out/fan-in collection that produces `all_results` is
orthogonal to the arithmetic and abstracted as the input list). -/
def computeRunStats (all_results : List TestResult) : RunStats :=
  let successful := all_results.filter (fun r => r.success)
  let failed := all_results.filter (fun r => !r.success)
  let response_times := successful.map (fun r => r.response_time)
  { total_requests := all_results.length
    successful_requests := successful.length
    failed_requests := failed.length
    min_time := if !response_times.isEmpty then pyMin response_times else 0
    max_time := if !response_times.isEmpty then pyMax response_times else 0
    avg_time :=
      if !response_times.isEmpty then
        response_times.sum / (response_times.length : ℚ)
      else 0
    response_times := response_times
    errors := failed.map (fun r => (r.endpoint, r.error)) }

/-- The per-run summary appended to `aggregated['run_stats']` (lines
440-445).  `stats.get('total_requests', 1)` defaults only when the KEY is
absent; `run_tests` always emits the key, so a run with `total_requests == 0`
divides by zero — hence `Except`. -/
structure RunSummary where
  success_rate : ℚ
  avg_time : ℚ
  min_time : ℚ
  max_time : ℚ

def runSummary (stats : RunStats) : Except String RunSummary :=
  if stats.total_requests = 0 then .error "ZeroDivisionError: division by zero"
  else
    .ok { success_rate :=
            (stats.successful_requests : ℚ) / (stats.total_requests : ℚ) * 100
          avg_time := stats.avg_time
          min_time := stats.min_time
          max_time := stats.max_time }

/-- The aggregated dict built by `aggregate_results` (nonempty input). -/
structure Aggregated where
  total_runs : Nat
  total_requests : Nat
  successful_requests : Nat
  failed_requests : Nat
  response_times : List ℚ
  all_errors : List (String × Option String)
  run_stats : List RunSummary
  avg_time : ℚ
  min_time : ℚ
  max_time : ℚ
  success_rate : ℚ

/-- The aggregation loop (lines 428-445): sum the three counters, extend the
flat latency population (the `if stats['response_times']:` truthiness guard
skips empty lists), extend the error list, append the per-run summary. -/
def aggLoop (runs : List RunStats) :
    Except String (Nat × Nat × Nat × List ℚ ×
      List (String × Option String) × List RunSummary) :=
  match runs with
  | [] => .ok (0, 0, 0, [], [], [])
  | stats :: rest =>
    match runSummary stats with
    | .error e => .error e
    | .ok sm =>
      match aggLoop rest with
      | .error e => .error e
      | .ok (t, su, f, rt, er, rs) =>
        .ok (stats.total_requests + t, stats.successful_requests + su,
          stats.failed_requests + f,
          (if !stats.response_times.isEmpty then stats.response_times
           else []) ++ rt,
          stats.errors ++ er, sm :: rs)

/-- `aggregate_results`: `none` for the empty input (the Python returns
`{}`), otherwise the aggregated record; an `error` when a per-run summary
divides by zero. -/
def aggregateResults (all_stats : List RunStats) :
    Except String (Option Aggregated) :=
  if all_stats.isEmpty then .ok none
  else
    match aggLoop all_stats with
    | .error e => .error e
    | .ok (t, su, f, rt, er, rs) =>
    .ok (some
      { total_runs := all_stats.length
        total_requests := t
        successful_requests := su
        failed_requests := f
        response_times := rt
        all_errors := er
        run_stats := rs
        avg_time := if !rt.isEmpty then rt.sum / (rt.length : ℚ) else 0
        min_time := if !rt.isEmpty then pyMin rt else 0
        max_time := if !rt.isEmpty then pyMax rt else 0
        success_rate := if 0 < t then (su : ℚ) / (t : ℚ) * 100 else 0 })

/-! ## Auxiliary lemmas: string-scanning primitives -/

theorem aux_data_append (a b : String) : (a ++ b).data = a.data ++ b.data := rfl

theorem aux_mk_data (s : String) : String.mk s.data = s := rfl

theorem aux_ne_of_data_ne {a b : String} (h : a.data ≠ b.data) : a ≠ b :=
  fun he => h (congrArg String.data he)

/-- Replacing a (nonempty) pattern by itself is the identity. -/
theorem aux_repGo_self (old : List Char) (hne : old ≠ []) :
    ∀ (f : Nat) (s : List Char), s.length ≤ f → repGo old old f s = s := by
  intro f
  induction f with
  | zero =>
    intro s hs
    cases s with
    | nil => rfl
    | cons c t => simp at hs
  | succ f ih =>
    intro s hs
    cases s with
    | nil => rfl
    | cons c t =>
      rw [repGo]
      by_cases hp : (!old.isEmpty && old.isPrefixOf (c :: t)) = true
      · rw [if_pos hp]
        have hpre : old <+: c :: t :=
          List.isPrefixOf_iff_prefix.mp ((Bool.and_eq_true _ _).mp hp).2
        obtain ⟨rest, hrest⟩ := hpre
        have hdrop : (c :: t).drop old.length = rest := by
          rw [← hrest]; exact List.drop_left old rest
        have holdlen : 1 ≤ old.length := by
          cases old with
          | nil => exact absurd rfl hne
          | cons _ _ => simp
        have hlen : old.length + rest.length = t.length + 1 := by
          have := congrArg List.length hrest
          simpa [List.length_append] using this
        have hs' : t.length + 1 ≤ f + 1 := by simpa using hs
        have hlrest : rest.length ≤ f := by omega
        rw [hdrop, ih rest hlrest, hrest]
      · rw [if_neg hp]
        have : t.length ≤ f := by
          simp only [List.length_cons] at hs; omega
        rw [ih t this]

/-- A pattern beginning with `c0` never matches inside a string avoiding
`c0`: replacement is the identity. -/
theorem aux_repGo_none (tail0 new : List Char) (c0 : Char) :
    ∀ (f : Nat) (s : List Char), (∀ c ∈ s, c ≠ c0) →
      repGo (c0 :: tail0) new f s = s := by
  intro f
  induction f with
  | zero => intro s _; rfl
  | succ f ih =>
    intro s hs
    cases s with
    | nil => rfl
    | cons c t =>
      rw [repGo]
      have hnp : ¬(!(c0 :: tail0).isEmpty &&
          (c0 :: tail0).isPrefixOf (c :: t)) = true := by
        intro hp
        have hpre : (c0 :: tail0) <+: c :: t :=
          List.isPrefixOf_iff_prefix.mp ((Bool.and_eq_true _ _).mp hp).2
        obtain ⟨rest, hrest⟩ := hpre
        have hc : c0 = c := by
          have := congrArg List.head? hrest
          simpa using this
        exact hs c (by simp) hc.symm
      rw [if_neg hnp]
      have ht : ∀ c' ∈ t, c' ≠ c0 := fun c' hc' => hs c' (List.mem_cons_of_mem _ hc')
      rw [ih t ht]

/-- The single-occurrence replacement: with no `c0` before or after the
occurrence of a pattern starting with `c0`, exactly that occurrence is
replaced. -/
theorem aux_repGo_junction (tail0 new : List Char) (c0 : Char) :
    ∀ (pre : List Char) (post : List Char) (f : Nat),
      (∀ c ∈ pre, c ≠ c0) → (∀ c ∈ post, c ≠ c0) →
      (pre ++ (c0 :: tail0) ++ post).length ≤ f →
      repGo (c0 :: tail0) new f (pre ++ (c0 :: tail0) ++ post) =
        pre ++ new ++ post := by
  intro pre
  induction pre with
  | nil =>
    intro post f _ hpost hf
    simp only [List.nil_append, List.cons_append, List.length_cons] at hf ⊢
    cases f with
    | zero => omega
    | succ f =>
      rw [repGo]
      have hp : (!(c0 :: tail0).isEmpty &&
          (c0 :: tail0).isPrefixOf (c0 :: (tail0 ++ post))) = true := by
        refine (Bool.and_eq_true _ _).mpr ⟨by simp [List.isEmpty], ?_⟩
        refine List.isPrefixOf_iff_prefix.mpr ?_
        have h := List.prefix_append (c0 :: tail0) post
        simp only [List.cons_append] at h
        exact h
      rw [if_pos hp]
      have hdrop : (c0 :: (tail0 ++ post)).drop (c0 :: tail0).length = post := by
        have h := List.drop_left (c0 :: tail0) post
        simp only [List.cons_append] at h
        exact h
      rw [hdrop, aux_repGo_none tail0 new c0 f post hpost]
  | cons c pre ih =>
    intro post f hpre hpost hf
    cases f with
    | zero => simp at hf
    | succ f =>
      simp only [List.cons_append] at hf ⊢
      rw [repGo]
      have hnp : ¬(!(c0 :: tail0).isEmpty &&
          (c0 :: tail0).isPrefixOf
            (c :: (pre ++ (c0 :: tail0) ++ post))) = true := by
        intro hp
        have hpre2 : (c0 :: tail0) <+: c :: (pre ++ (c0 :: tail0) ++ post) :=
          List.isPrefixOf_iff_prefix.mp ((Bool.and_eq_true _ _).mp hp).2
        obtain ⟨rest, hrest⟩ := hpre2
        have hc : c0 = c := by
          have := congrArg List.head? hrest
          simpa using this
        exact hpre c (by simp) hc.symm
      rw [if_neg hnp]
      have hpre' : ∀ c' ∈ pre, c' ≠ c0 :=
        fun c' hc' => hpre c' (List.mem_cons_of_mem _ hc')
      have hf' : (pre ++ (c0 :: tail0) ++ post).length ≤ f := by
        simp only [List.length_cons] at hf
        simpa using Nat.le_of_succ_le_succ hf
      rw [ih post f hpre' hpost hf']

theorem aux_takeWhile_append (p : Char → Bool) :
    ∀ (l : List Char) (c0 : Char) (r : List Char),
      (∀ c ∈ l, p c = true) → p c0 = false →
      (l ++ c0 :: r).takeWhile p = l := by
  intro l
  induction l with
  | nil =>
    intro c0 r _ hc
    exact @List.takeWhile_cons_of_neg Char p c0 r (by simp [hc])
  | cons a l ih =>
    intro c0 r hl hc
    have ha : p a = true := hl a (by simp)
    have hl' : ∀ c ∈ l, p c = true := fun c hc' => hl c (by simp [hc'])
    simp only [List.cons_append, List.takeWhile_cons_of_pos ha]
    rw [ih c0 r hl' hc]

theorem aux_dropWhile_append (p : Char → Bool) :
    ∀ (l : List Char) (c0 : Char) (r : List Char),
      (∀ c ∈ l, p c = true) → p c0 = false →
      (l ++ c0 :: r).dropWhile p = c0 :: r := by
  intro l
  induction l with
  | nil =>
    intro c0 r _ hc
    exact @List.dropWhile_cons_of_neg Char p c0 r (by simp [hc])
  | cons a l ih =>
    intro c0 r hl hc
    have ha : p a = true := hl a (by simp)
    have hl' : ∀ c ∈ l, p c = true := fun c hc' => hl c (by simp [hc'])
    simp only [List.cons_append, List.dropWhile_cons_of_pos ha]
    exact ih c0 r hl' hc

/-- `refMatch` fails at a position that is not a `$`. -/
theorem aux_refMatch_ne (a : Char) (s : List Char) (h : a ≠ '$') :
    refMatch (a :: s) = none := by
  unfold refMatch
  split
  · rename_i rest heq
    exact absurd (by injection heq) h
  · rfl

/-- `refMatch` at the head of a well-formed `${name}` occurrence. -/
theorem aux_refMatch_junction (name post : List Char) (hne : name ≠ [])
    (hnb : '}' ∉ name) :
    refMatch ('$' :: '{' :: (name ++ '}' :: post)) = some (name, post) := by
  have htw : (name ++ '}' :: post).takeWhile (fun c => c ≠ '}') = name := by
    refine aux_takeWhile_append _ name '}' post ?_ (by simp)
    intro c hc
    simp only [ne_eq, decide_eq_true_eq]
    exact fun he => hnb (he ▸ hc)
  have hdw : (name ++ '}' :: post).dropWhile (fun c => c ≠ '}') = '}' :: post := by
    refine aux_dropWhile_append _ name '}' post ?_ (by simp)
    intro c hc
    simp only [ne_eq, decide_eq_true_eq]
    exact fun he => hnb (he ▸ hc)
  unfold refMatch
  simp only [htw, hdw]
  simp [List.isEmpty_iff, hne]

/-- A successful `refMatch` consumes at least three characters. -/
theorem aux_refMatch_some_len {s b t : List Char}
    (h : refMatch s = some (b, t)) : t.length + 3 ≤ s.length := by
  unfold refMatch at h
  split at h
  · rename_i rest
    split at h
    · rename_i tail heq2
      split at h
      · exact absurd h (by simp)
      · rw [Option.some.injEq, Prod.mk.injEq] at h
        obtain ⟨hb, ht⟩ := h
        have hsplit : rest.takeWhile (fun c => c ≠ '}') ++
            rest.dropWhile (fun c => c ≠ '}') = rest :=
          List.takeWhile_append_dropWhile _ _
        have hlen : (rest.takeWhile (fun c => c ≠ '}')).length +
            (tail.length + 1) = rest.length := by
          conv_rhs => rw [← hsplit]
          rw [List.length_append, heq2]
          simp
        subst ht
        simp only [List.length_cons]
        omega
    · exact absurd h (by simp)
  · exact absurd h (by simp)

/-- On a `$`-free string the reference scan finds nothing, for any fuel. -/
theorem aux_fvGo_no_dollar :
    ∀ (f : Nat) (s : List Char), (∀ c ∈ s, c ≠ '$') → fvGo f s = [] := by
  intro f
  induction f with
  | zero => intro s _; rfl
  | succ f ih =>
    intro s hs
    cases s with
    | nil => rfl
    | cons c t =>
      rw [fvGo, aux_refMatch_ne c t (hs c (by simp))]
      exact ih t (fun c' hc' => hs c' (List.mem_cons_of_mem _ hc'))

/-- A `$`-free prefix does not change the reference scan. -/
theorem aux_findVarRefs_pre :
    ∀ (pre : List Char), (∀ c ∈ pre, c ≠ '$') →
    ∀ (s : List Char), findVarRefs (pre ++ s) = findVarRefs s := by
  intro pre
  induction pre with
  | nil => intro _ s; rfl
  | cons c pre ih =>
    intro hpre s
    have hc : c ≠ '$' := hpre c (by simp)
    have hpre' : ∀ c' ∈ pre, c' ≠ '$' :=
      fun c' hc' => hpre c' (List.mem_cons_of_mem _ hc')
    show fvGo ((c :: (pre ++ s)).length) (c :: (pre ++ s)) = findVarRefs s
    simp only [List.length_cons]
    rw [fvGo, aux_refMatch_ne c _ hc]
    exact ih hpre' s

/-- The reference scan on `${name}` followed by a `$`-free remainder. -/
theorem aux_findVarRefs_junction (name post : List Char) (hne : name ≠ [])
    (hnb : '}' ∉ name) (hpost : ∀ c ∈ post, c ≠ '$') :
    findVarRefs ('$' :: '{' :: (name ++ '}' :: post)) = [name] := by
  show fvGo (('$' :: '{' :: (name ++ '}' :: post)).length) _ = [name]
  simp only [List.length_cons]
  rw [fvGo]
  simp only [aux_refMatch_junction name post hne hnb]
  rw [aux_fvGo_no_dollar _ post hpost]

/-! ## Auxiliary lemmas: the resolver and the provider registry -/

theorem aux_startsDollar_false {s : String} {c : Char} {t : List Char}
    (h : s.data = c :: t) (hc : c ≠ '$') : startsDollar s = false := by
  unfold startsDollar
  rw [h]
  simp [hc]

theorem aux_startsDollar_true {s : String} {t : List Char}
    (h : s.data = '$' :: t) : startsDollar s = true := by
  unfold startsDollar
  rw [h]
  simp

/-- `name` is absent from all four lookup tables. -/
def missAll (cfg : TestConfig) (name : String) : Prop :=
  (pyGet cfg.variables_ name).isNone = true ∧
    (pyGet cfg.generators name).isNone = true ∧
    (pyGet cfg.datasets name).isNone = true ∧
    (pyGet cfg.ranges name).isNone = true

instance (cfg : TestConfig) (name : String) : Decidable (missAll cfg name) := by
  unfold missAll
  infer_instance

/-- When every table misses `name`, the `or`-chain falls through to the
literal `${name}` placeholder. -/
theorem aux_lookupChain_miss (cfg : TestConfig) (name : String)
    (h : missAll cfg name) :
    lookupChain cfg name = .str ("$\x7b" ++ name ++ "\x7d") := by
  obtain ⟨h1, h2, h3, h4⟩ := h
  rw [Option.isNone_iff_eq_none] at h1 h2 h3 h4
  unfold lookupChain
  rw [h1, h2, h3, h4]
  rfl

/-- When every table misses `name`, the substitution step replaces the
placeholder by itself: the identity. -/
theorem aux_substName_miss (cfg : TestConfig) (name : List Char)
    (h : missAll cfg (String.mk name)) (r : String) :
    substName cfg r name = r := by
  unfold substName
  rw [aux_lookupChain_miss cfg (String.mk name) h]
  have hdata : (pyStr (.str ("$\x7b" ++ String.mk name ++ "\x7d"))).data =
      '$' :: '{' :: name ++ ['}'] := rfl
  rw [hdata]
  unfold replaceAll
  rw [aux_repGo_self ('$' :: '{' :: name ++ ['}']) (by simp) r.data.length
    r.data (le_refl _)]

theorem aux_foldl_substName_miss (cfg : TestConfig) :
    ∀ (refs : List (List Char)),
      (∀ n ∈ refs, missAll cfg (String.mk n)) →
      ∀ (r : String), refs.foldl (substName cfg) r = r := by
  intro refs
  induction refs with
  | nil => intro _ r; rfl
  | cons n refs ih =>
    intro h r
    show (refs.foldl (substName cfg) (substName cfg r n)) = r
    rw [aux_substName_miss cfg n (h n (by simp)) r]
    exact ih (fun m hm => h m (List.mem_cons_of_mem _ hm)) r

/-- Strings that begin with `${` fall through every provider pattern of
`get_provider` and come back as passthrough closures. -/
theorem aux_getProviderStr_brace {s : String} {rest : List Char}
    (h : s.data = '$' :: '{' :: rest) :
    getProviderStr s = .ok (.passthru (.str s)) := by
  have hmr : matchRandom s.data = none := by
    unfold matchRandom
    rw [h]
    rw [if_neg ?_]
    simp [List.isPrefixOf]
  have hbrace : '{' ∈ s.data := by rw [h]; simp
  have hnu : s ≠ "$uuid" := by
    intro he
    rw [he] at hbrace
    exact absurd hbrace (by decide)
  have hnn : s ≠ "$now" := by
    intro he
    rw [he] at hbrace
    exact absurd hbrace (by decide)
  have hml : matchLorem s.data = none := by
    unfold matchLorem
    rw [h]
    rw [if_neg ?_]
    simp [List.isPrefixOf]
  have hmt : matchType s.data = none := by
    unfold matchType
    rw [h]
    have : ('{' :: rest).takeWhile isWordChar = [] :=
      List.takeWhile_cons_of_neg (by decide)
    simp [this]
  unfold getProviderStr
  simp only [hmr, hml, hmt, if_neg hnu, if_neg hnn]

/-- `_resolve_variables` on a string whose `${...}` references all miss the
four tables: unchanged, provided the string is not a provider template
(does not start with `$`, or starts with the reference prefix `${`). -/
theorem aux_resolveStr_miss (o : RandOracle) (cfg : TestConfig) (s : String)
    (hmiss : ∀ n ∈ findVarRefs s.data, missAll cfg (String.mk n))
    (hshape : startsDollar s = false ∨ ∃ rest, s.data = '$' :: '{' :: rest) :
    resolveStr o cfg s = .ok (.str s) := by
  rcases hshape with hd | ⟨rest, hrest⟩
  · unfold resolveStr
    rw [hd]
    simp only [Bool.false_eq_true, if_false]
    by_cases he : (findVarRefs s.data).isEmpty
    · rw [if_pos he]
    · rw [if_neg he, aux_foldl_substName_miss cfg (findVarRefs s.data) hmiss s]
  · unfold resolveStr
    rw [aux_startsDollar_true hrest, if_pos rfl]
    rw [aux_getProviderStr_brace hrest]
    rfl

/-- `True` on scalar values (anything but a mapping or a sequence). -/
def isScalarB : Value → Bool
  | .dict _ => false
  | .list _ => false
  | _ => true

/-- Every provider closure built by `get_provider` on a string yields a
scalar when invoked (the passthrough case carries the input string). -/
theorem aux_getProviderStr_scalar {s : String} {ps : ProviderSpec}
    (h : getProviderStr s = .ok ps) (o : RandOracle) :
    isScalarB (invokeProvider o ps) = true := by
  unfold getProviderStr randomBranch at h
  repeat' split at h
  all_goals
    first
    | (injection h with h1; subst h1; rfl)
    | exact absurd h (by simp)

mutual

/-- How a resolved value `w` may relate to its raw template `v`: mappings map
to mappings with identical key lists, sequences to sequences of the same
length (componentwise), provider-template strings to scalars, substitution
strings to strings, every other leaf to itself unchanged. -/
def faithfulV : Value → Value → Bool
  | .str s, w =>
    if startsDollar s then isScalarB w
    else if !(findVarRefs s.data).isEmpty then
      match w with
      | .str _ => true
      | _ => false
    else
      match w with
      | .str t => t = s
      | _ => false
  | .intV n, w => match w with | .intV m => m = n | _ => false
  | .ratV q, w => match w with | .ratV r => r = q | _ => false
  | .boolV b, w => match w with | .boolV c => c = b | _ => false
  | .noneV, w => match w with | .noneV => true | _ => false
  | .dict l, w => match w with | .dict m => faithfulF l m | _ => false
  | .list l, w => match w with | .list m => faithfulE l m | _ => false

def faithfulF : List (String × Value) → List (String × Value) → Bool
  | [], [] => true
  | (k, v) :: l, (k2, w) :: m => k2 = k && faithfulV v w && faithfulF l m
  | _, _ => false

def faithfulE : List Value → List Value → Bool
  | [], [] => true
  | v :: l, w :: m => faithfulV v w && faithfulE l m
  | _, _ => false

end

/-- A successfully resolved string is faithful to its template. -/
theorem aux_resolveStr_faithful {o : RandOracle} {cfg : TestConfig}
    {s : String} {w : Value} (h : resolveStr o cfg s = .ok w) :
    faithfulV (.str s) w = true := by
  unfold resolveStr at h
  by_cases hd : startsDollar s = true
  · rw [if_pos hd] at h
    cases hg : getProviderStr s with
    | error e => rw [hg] at h; exact absurd h (by simp [Except.map])
    | ok ps =>
      rw [hg] at h
      have hw : w = invokeProvider o ps := by
        simp only [Except.map] at h
        injection h with h1
        exact h1.symm
      unfold faithfulV
      rw [if_pos hd, hw]
      exact aux_getProviderStr_scalar hg o
  · rw [if_neg hd] at h
    by_cases he : (findVarRefs s.data).isEmpty
    · rw [if_pos he] at h
      injection h with h1
      unfold faithfulV
      rw [if_neg hd, he, ← h1]
      simp
    · rw [if_neg he] at h
      injection h with h1
      unfold faithfulV
      rw [if_neg hd]
      simp only [Bool.not_eq_true] at he
      rw [he, ← h1]
      simp

mutual

theorem aux_resolve_faithfulV (o : RandOracle) (cfg : TestConfig) :
    ∀ (v w : Value), resolveVariables o cfg v = .ok w → faithfulV v w = true
  | .str s, w, h => aux_resolveStr_faithful (by
      have : resolveVariables o cfg (.str s) = resolveStr o cfg s := by
        unfold resolveVariables
        rfl
      rw [← this]; exact h)
  | .intV n, w, h => by
    unfold resolveVariables at h
    injection h with h1
    rw [← h1]; simp [faithfulV]
  | .ratV q, w, h => by
    unfold resolveVariables at h
    injection h with h1
    rw [← h1]; simp [faithfulV]
  | .boolV b, w, h => by
    unfold resolveVariables at h
    injection h with h1
    rw [← h1]; simp [faithfulV]
  | .noneV, w, h => by
    unfold resolveVariables at h
    injection h with h1
    rw [← h1]; simp [faithfulV]
  | .dict l, w, h => by
    unfold resolveVariables at h
    cases hf : resolveFields o cfg l with
    | error e => rw [hf] at h; exact absurd h (by simp)
    | ok fs =>
      rw [hf] at h
      injection h with h1
      rw [← h1]
      unfold faithfulV
      exact aux_resolve_faithfulF o cfg l fs hf
  | .list l, w, h => by
    unfold resolveVariables at h
    cases hf : resolveElems o cfg l with
    | error e => rw [hf] at h; exact absurd h (by simp)
    | ok es =>
      rw [hf] at h
      injection h with h1
      rw [← h1]
      unfold faithfulV
      exact aux_resolve_faithfulE o cfg l es hf

theorem aux_resolve_faithfulF (o : RandOracle) (cfg : TestConfig) :
    ∀ (l m : List (String × Value)), resolveFields o cfg l = .ok m →
      faithfulF l m = true
  | [], m, h => by
    unfold resolveFields at h
    injection h with h1
    rw [← h1]; simp [faithfulF]
  | (k, v) :: l, m, h => by
    unfold resolveFields at h
    cases hv : resolveVariables o cfg v with
    | error e => rw [hv] at h; exact absurd h (by simp)
    | ok v' =>
      rw [hv] at h
      cases hr : resolveFields o cfg l with
      | error e => rw [hr] at h; exact absurd h (by simp)
      | ok rest' =>
        rw [hr] at h
        injection h with h1
        rw [← h1]
        unfold faithfulF
        simp only [Bool.and_eq_true]
        exact ⟨⟨by simp, aux_resolve_faithfulV o cfg v v' hv⟩,
          aux_resolve_faithfulF o cfg l rest' hr⟩

theorem aux_resolve_faithfulE (o : RandOracle) (cfg : TestConfig) :
    ∀ (l m : List Value), resolveElems o cfg l = .ok m → faithfulE l m = true
  | [], m, h => by
    unfold resolveElems at h
    injection h with h1
    rw [← h1]; simp [faithfulE]
  | v :: l, m, h => by
    unfold resolveElems at h
    cases hv : resolveVariables o cfg v with
    | error e => rw [hv] at h; exact absurd h (by simp)
    | ok v' =>
      rw [hv] at h
      cases hr : resolveElems o cfg l with
      | error e => rw [hr] at h; exact absurd h (by simp)
      | ok rest' =>
        rw [hr] at h
        injection h with h1
        rw [← h1]
        unfold faithfulE
        simp only [Bool.and_eq_true]
        exact ⟨aux_resolve_faithfulV o cfg v v' hv,
          aux_resolve_faithfulE o cfg l rest' hr⟩

end

/-- A word-character run followed by `{` determines itself: if
`pw ++ "\x7b"` is a prefix of `w ++ "\x7b" ++ rest` with `pw` and `w` made of
word characters, then `pw = w`. -/
theorem aux_word_prefix_brace :
    ∀ (pw w rest : List Char),
      (∀ c ∈ pw, isWordChar c = true) → (∀ c ∈ w, isWordChar c = true) →
      (pw ++ ['{']).isPrefixOf (w ++ '{' :: rest) = true → pw = w := by
  intro pw
  induction pw with
  | nil =>
    intro w rest _ hw hp
    cases w with
    | nil => rfl
    | cons c w' =>
      exfalso
      simp only [List.nil_append, List.cons_append, List.isPrefixOf,
        Bool.and_eq_true, beq_iff_eq] at hp
      have hc : isWordChar c = true := hw c (by simp)
      rw [← hp.1] at hc
      exact absurd hc (by decide)
  | cons a pw' ih =>
    intro w rest hpw hw hp
    cases w with
    | nil =>
      exfalso
      simp only [List.cons_append, List.nil_append, List.isPrefixOf,
        Bool.and_eq_true, beq_iff_eq] at hp
      have ha : isWordChar a = true := hpw a (by simp)
      rw [hp.1] at ha
      exact absurd ha (by decide)
    | cons c w' =>
      simp only [List.cons_append, List.isPrefixOf, Bool.and_eq_true,
        beq_iff_eq] at hp
      obtain ⟨hac, hp'⟩ := hp
      have hrec := ih w' rest
        (fun x hx => hpw x (List.mem_cons_of_mem _ hx))
        (fun x hx => hw x (List.mem_cons_of_mem _ hx))
        (by simpa [List.cons_append] using hp')
      rw [hac, hrec]

/-- `re.match(r'\$(\w+)\{([^}]*)\}')` on a well-formed `$tag{p}` layout. -/
theorem aux_matchType_junction (tag p : List Char)
    (hw : ∀ c ∈ tag, isWordChar c = true) (hne : tag ≠ [])
    (hpb : '}' ∉ p) :
    matchType ('$' :: (tag ++ '{' :: (p ++ ['}']))) = some (tag, p) := by
  have htw : (tag ++ '{' :: (p ++ ['}'])).takeWhile isWordChar = tag :=
    aux_takeWhile_append _ tag '{' _ hw (by decide)
  have hdrop : (tag ++ '{' :: (p ++ ['}'])).drop tag.length =
      '{' :: (p ++ ['}']) := List.drop_left _ _
  have hptw : (p ++ ['}']).takeWhile (fun c => c ≠ '}') = p := by
    refine aux_takeWhile_append _ p '}' [] ?_ (by simp)
    intro c hc
    simp only [ne_eq, decide_eq_true_eq]
    exact fun he => hpb (he ▸ hc)
  have hpdw : (p ++ ['}']).dropWhile (fun c => c ≠ '}') = ['}'] := by
    refine aux_dropWhile_append _ p '}' [] ?_ (by simp)
    intro c hc
    simp only [ne_eq, decide_eq_true_eq]
    exact fun he => hpb (he ▸ hc)
  unfold matchType
  simp only [htw, hdrop, hptw, hpdw]
  simp [List.isEmpty_iff, hne]

/-- The data of the string `"$" ++ tag ++ "\x7b" ++ p ++ "\x7d"`. -/
theorem aux_tag_data (tag p : String) :
    ("$" ++ tag ++ "\x7b" ++ p ++ "\x7d").data =
      '$' :: (tag.data ++ '{' :: (p.data ++ ['}'])) := by
  show ((((['$'] ++ tag.data) ++ ['{']) ++ p.data) ++ ['}']) = _
  simp [List.append_assoc]

/-- `get_provider` on an unrecognized `$tag{...}` template (any word tag
other than `random`, `range` and `lorem`): the passthrough closure, no
raise. -/
theorem aux_getProviderStr_tag (tag p : String)
    (hw : ∀ c ∈ tag.data, isWordChar c = true) (hne : tag.data ≠ [])
    (hpb : '}' ∉ p.data)
    (hr : tag ≠ "random") (hg : tag ≠ "range") (hl : tag ≠ "lorem") :
    getProviderStr ("$" ++ tag ++ "\x7b" ++ p ++ "\x7d") =
      .ok (.passthru (.str ("$" ++ tag ++ "\x7b" ++ p ++ "\x7d"))) := by
  have hdata := aux_tag_data tag p
  have hbrace : '{' ∈ ("$" ++ tag ++ "\x7b" ++ p ++ "\x7d").data := by
    rw [hdata]; simp
  have hmr : matchRandom ("$" ++ tag ++ "\x7b" ++ p ++ "\x7d").data = none := by
    rw [hdata]
    unfold matchRandom
    rw [if_neg ?_]
    intro hpre
    simp only [List.isPrefixOf, Bool.and_eq_true, beq_iff_eq] at hpre
    obtain ⟨-, hpre⟩ := hpre
    have : ("random".data ++ ['{']).isPrefixOf
        (tag.data ++ '{' :: (p.data ++ ['}'])) = true := hpre
    have heq := aux_word_prefix_brace "random".data tag.data _
      (by decide) hw this
    exact hr (String.ext heq.symm)
  have hml : matchLorem ("$" ++ tag ++ "\x7b" ++ p ++ "\x7d").data = none := by
    rw [hdata]
    unfold matchLorem
    rw [if_neg ?_]
    intro hpre
    simp only [List.isPrefixOf, Bool.and_eq_true, beq_iff_eq] at hpre
    obtain ⟨-, hpre⟩ := hpre
    have : ("lorem".data ++ ['{']).isPrefixOf
        (tag.data ++ '{' :: (p.data ++ ['}'])) = true := hpre
    have heq := aux_word_prefix_brace "lorem".data tag.data _
      (by decide) hw this
    exact hl (String.ext heq.symm)
  have hnu : ("$" ++ tag ++ "\x7b" ++ p ++ "\x7d") ≠ "$uuid" := by
    intro he
    rw [he] at hbrace
    exact absurd hbrace (by decide)
  have hnn : ("$" ++ tag ++ "\x7b" ++ p ++ "\x7d") ≠ "$now" := by
    intro he
    rw [he] at hbrace
    exact absurd hbrace (by decide)
  have hmt : matchType ("$" ++ tag ++ "\x7b" ++ p ++ "\x7d").data =
      some (tag.data, p.data) := by
    rw [hdata]
    exact aux_matchType_junction tag.data p.data hw hne hpb
  have hgr : tag.data ≠ ('r' :: 'a' :: 'n' :: 'g' :: 'e' :: []) := by
    intro he
    exact hg (String.ext he)
  unfold getProviderStr
  simp only [hmr, hml, hmt, if_neg hnu, if_neg hnn]
  rw [if_neg hgr]

/-! ## Auxiliary lemmas: rounding, runner, statistics, URL join -/

theorem aux_rhe_bounds (q : ℚ) :
    q - 1/2 ≤ (roundHalfEven q : ℚ) ∧ (roundHalfEven q : ℚ) ≤ q + 1/2 := by
  have hf1 : ((⌊q⌋ : ℤ) : ℚ) ≤ q := Int.floor_le q
  have hf2 : q < ((⌊q⌋ : ℤ) : ℚ) + 1 := Int.lt_floor_add_one q
  unfold roundHalfEven
  split
  · rename_i h
    constructor <;> linarith
  · split
    · rename_i h1 h2
      constructor <;> push_cast <;> linarith
    · rename_i h1 h2
      have h3 : q - ((⌊q⌋ : ℤ) : ℚ) = 1/2 := by linarith [not_lt.mp h1, not_lt.mp h2]
      split <;> constructor <;> push_cast <;> linarith

theorem aux_pyRound2_bounds (q : ℚ) :
    q - 1/200 ≤ pyRound2 q ∧ pyRound2 q ≤ q + 1/200 := by
  obtain ⟨h1, h2⟩ := aux_rhe_bounds (q * 100)
  unfold pyRound2
  constructor
  · rw [le_div_iff₀ (by norm_num : (0:ℚ) < 100)]
    linarith
  · rw [div_le_iff₀ (by norm_num : (0:ℚ) < 100)]
    linarith

/-- Every dispatched request of the loop carries the same `kwargs`. -/
theorem aux_sendLoop_record {σ : Type} (method url : String)
    (kwargs : Option Value) :
    ∀ (n : Nat) (s : σ),
      ((sendLoop recordingSend method url kwargs n s).1.map
        (fun r => r.request_data)) = List.replicate n kwargs := by
  intro n
  induction n with
  | zero => intro s; rfl
  | succ n ih =>
    intro s
    simp only [sendLoop, recordingSend, List.map_cons, List.replicate, ih]

/-- The truthiness guard on a run's latency list is the identity. -/
theorem aux_if_times (l : List ℚ) : (if !l.isEmpty then l else []) = l := by
  cases l <;> simp

/-- The aggregation loop on runs with nonzero totals: summed counters,
flattened latency population, flattened errors, per-run summaries in run
order. -/
theorem aux_aggLoop_ok (runs : List RunStats)
    (h : ∀ st ∈ runs, st.total_requests ≠ 0) :
    aggLoop runs = .ok ((runs.map (fun st => st.total_requests)).sum,
      (runs.map (fun st => st.successful_requests)).sum,
      (runs.map (fun st => st.failed_requests)).sum,
      (runs.map (fun st => st.response_times)).flatten,
      (runs.map (fun st => st.errors)).flatten,
      runs.map (fun st =>
        { success_rate :=
            (st.successful_requests : ℚ) / (st.total_requests : ℚ) * 100,
          avg_time := st.avg_time, min_time := st.min_time,
          max_time := st.max_time })) := by
  induction runs with
  | nil => rfl
  | cons st rest ih =>
    have hst : st.total_requests ≠ 0 := h st (by simp)
    unfold aggLoop runSummary
    rw [if_neg hst, ih (fun s hs => h s (List.mem_cons_of_mem _ hs))]
    simp only [List.map_cons, List.sum_cons, List.flatten_cons, aux_if_times]

/-- With no successful outcome the latency sample list is empty. -/
theorem aux_allFailed_times (results : List TestResult)
    (h : ∀ r ∈ results, r.success = false) :
    (results.filter (fun r => r.success)).map (fun r => r.response_time) = [] := by
  have hfilter : results.filter (fun r => r.success) = [] :=
    List.filter_eq_nil_iff.mpr (fun r hr => by simp [h r hr])
  rw [hfilter]
  rfl

theorem aux_stripTrail_snoc (l : List Char) :
    stripTrailSlash (l ++ ['/']) = stripTrailSlash l := by
  unfold stripTrailSlash
  rw [List.reverse_append]
  simp only [List.reverse_cons, List.reverse_nil, List.nil_append,
    List.singleton_append]
  rw [List.dropWhile_cons_of_pos (by decide)]

theorem aux_stripLead_cons (l : List Char) :
    stripLeadSlash ('/' :: l) = stripLeadSlash l := by
  unfold stripLeadSlash
  exact List.dropWhile_cons_of_pos (by decide)

theorem aux_dropWhile_head (p : Char → Bool) :
    ∀ (l : List Char) (c : Char), (l.dropWhile p).head? = some c →
      p c = false := by
  intro l
  induction l with
  | nil => intro c h; simp [List.dropWhile] at h
  | cons a l ih =>
    intro c h
    by_cases hp : p a = true
    · rw [List.dropWhile_cons_of_pos hp] at h
      exact ih c h
    · rw [List.dropWhile_cons_of_neg hp] at h
      simp only [List.head?_cons, Option.some.injEq] at h
      rw [← h]
      exact Bool.not_eq_true _ ▸ hp

theorem aux_getLast_stripTrail (l : List Char) (c : Char)
    (h : (stripTrailSlash l).getLast? = some c) : c ≠ '/' := by
  unfold stripTrailSlash at h
  rw [List.getLast?_reverse] at h
  have := aux_dropWhile_head _ _ _ h
  simp only [decide_eq_true_eq] at this
  intro he
  rw [he] at this
  simp at this

theorem aux_head_stripLead (l : List Char) (c : Char)
    (h : (stripLeadSlash l).head? = some c) : c ≠ '/' := by
  unfold stripLeadSlash at h
  have := aux_dropWhile_head _ _ _ h
  simp only [decide_eq_true_eq] at this
  intro he
  rw [he] at this
  simp at this

/-- `x` is `dict.get`-missing or holds a falsy value — exactly the cases the
Python `or`-chain skips. -/
def missOrFalsy (x : Option Value) : Prop :=
  ∀ v, x = some v → pyTruthy v = false

theorem aux_pyOrOpt_truthy {x : Option Value} {v : Value} (b : Value)
    (h : x = some v) (ht : pyTruthy v = true) : pyOrOpt x b = v := by
  rw [h]
  show (if pyTruthy v = true then v else b) = v
  rw [if_pos ht]

theorem aux_pyOrOpt_skip {x : Option Value} (b : Value)
    (h : missOrFalsy x) : pyOrOpt x b = b := by
  cases hx : x with
  | none => rfl
  | some v =>
    show (if pyTruthy v = true then v else b) = b
    rw [h v hx]
    simp

/-- `_resolve_variables` on a string of the shape `pre ++ "${name}" ++ post`
(one reference, no stray `$`): the placeholder is replaced by the rendered
`or`-chain lookup. -/
theorem aux_resolveStr_subst (o : RandOracle) (cfg : TestConfig)
    (pre name post : String)
    (hpre_ne : pre.data ≠ [])
    (hpre : ∀ c ∈ pre.data, c ≠ '$')
    (hname_ne : name.data ≠ [])
    (hname_rb : '}' ∉ name.data)
    (hpost : ∀ c ∈ post.data, c ≠ '$') :
    resolveStr o cfg (pre ++ "$\x7b" ++ name ++ "\x7d" ++ post) =
      .ok (.str (pre ++ pyStr (lookupChain cfg name) ++ post)) := by
  have hdata : (pre ++ "$\x7b" ++ name ++ "\x7d" ++ post).data =
      pre.data ++ ('$' :: '{' :: name.data ++ '}' :: post.data) := by
    show ((((pre.data ++ ['$', '{']) ++ name.data) ++ ['}']) ++ post.data) = _
    simp [List.append_assoc]
  have hsd : startsDollar (pre ++ "$\x7b" ++ name ++ "\x7d" ++ post) = false := by
    cases hc : pre.data with
    | nil => exact absurd hc hpre_ne
    | cons c t =>
      have : (pre ++ "$\x7b" ++ name ++ "\x7d" ++ post).data =
          c :: (t ++ ('$' :: '{' :: name.data ++ '}' :: post.data)) := by
        rw [hdata, hc]
        simp
      exact aux_startsDollar_false this (hpre c (by rw [hc]; simp))
  have hrefs : findVarRefs (pre ++ "$\x7b" ++ name ++ "\x7d" ++ post).data =
      [name.data] := by
    rw [hdata, aux_findVarRefs_pre pre.data hpre]
    exact aux_findVarRefs_junction name.data post.data hname_ne hname_rb hpost
  have hshape : (pre ++ "$\x7b" ++ name ++ "\x7d" ++ post).data =
      pre.data ++ ('$' :: ('{' :: name.data ++ ['}'])) ++ post.data := by
    rw [hdata]
    simp [List.append_assoc]
  unfold resolveStr
  rw [hsd]
  simp only [Bool.false_eq_true, if_false, hrefs]
  rw [if_neg (by simp)]
  show Except.ok (Value.str (substName cfg (pre ++ "$\x7b" ++ name ++ "\x7d" ++ post)
    name.data)) = _
  unfold substName
  rw [aux_mk_data name]
  unfold replaceAll
  have hrep : repGo ('$' :: '{' :: name.data ++ ['}'])
      (pyStr (lookupChain cfg name)).data
      (pre ++ "$\x7b" ++ name ++ "\x7d" ++ post).data.length
      (pre ++ "$\x7b" ++ name ++ "\x7d" ++ post).data =
      pre.data ++ (pyStr (lookupChain cfg name)).data ++ post.data := by
    rw [hshape]
    exact aux_repGo_junction ('{' :: name.data ++ ['}'])
      (pyStr (lookupChain cfg name)).data '$' pre.data post.data _ hpre hpost
      (le_refl _)
  rw [hrep]
  rfl

/-! ## Concrete objects for witnesses and counterexamples -/

/-- A fixed randomness oracle for concrete evaluations: `uniform` and
`randint` return their lower bound (a legal draw), `choice` picks index 0. -/
def oracle0 : RandOracle :=
  { randint := fun a _ => a
    uniform := fun a _ => a
    choiceIdx := fun _ => 0
    uuidStr := "00000000-0000-4000-8000-000000000000"
    nowStr := "2026-01-01T00:00:00+00:00" }

/-- A configuration with all four lookup tables empty. -/
def cfgEmpty : TestConfig := {}

/-- `variables['x'] = 0` (falsy) while `generators['x'] = 5` (truthy). -/
def cfgTruthy : TestConfig :=
  { variables_ := [("x", .intV 0)], generators := [("x", .intV 5)] }

/-- `variables['x'] = ""` (falsy), `generators['x'] = 7` (truthy). -/
def cfgW : TestConfig :=
  { variables_ := [("x", .str "")], generators := [("x", .intV 7)] }

/-- A body generator whose state is a counter: each invocation yields a fresh
(nonempty, hence truthy) payload `{"id": counter}` and bumps the counter —
the behavior of `_generate_request_data` on a template with a dynamic
provider tag. -/
def genCounter : Nat → Value × Nat := fun s => (.dict [("id", .intV s)], s + 1)

/-- One failed outcome. -/
def failedResult : TestResult :=
  { endpoint := "http://a/p", method := "GET", success := false,
    status_code := some 500, response_time := 5, error := some "boom" }

/-- The per-run statistics of a run with 10 requests, all successful. -/
def runAllPass : RunStats :=
  { total_requests := 10, successful_requests := 10, failed_requests := 0,
    min_time := 1, max_time := 2, avg_time := 3/2,
    response_times := [1, 2], errors := [] }

/-- The per-run statistics of a run with 10 requests, all failed. -/
def runAllFail : RunStats :=
  { total_requests := 10, successful_requests := 0, failed_requests := 10,
    min_time := 0, max_time := 0, avg_time := 0,
    response_times := [], errors := [("http://a/p", some "boom")] }

/-- The statistics `run_tests` emits for a run with no outcomes at all
(empty endpoint list, or every endpoint task discarded by the error
isolation): `total_requests == 0` and the key IS present in the dict. -/
def zeroRunStats : RunStats := computeRunStats []

/-! ## Claims -/

/-- C1 (counterexample): `test_endpoint` does NOT resolve a fresh body per
repetition.  With a body generator that yields a fresh payload on each
invocation (a counter standing for a dynamic provider), two repetitions of
`test_endpoint` dispatch the SAME payload, while the spec's per-repetition
model dispatches two distinct ones — so the body-resolution function is not
invoked once per repetition. -/
theorem c1_counterexample :
    ((testEndpoint 2 genCounter recordingSend (some "post") "b" "p" 0).1.map
      (fun r => r.request_data) =
      [some (.dict [("id", .intV 0)]), some (.dict [("id", .intV 0)])]) ∧
    ((testEndpointSpecModel 2 genCounter recordingSend (some "post") "b" "p"
      0).1.map (fun r => r.request_data) =
      [some (.dict [("id", .intV 0)]), some (.dict [("id", .intV 1)])]) ∧
    ((testEndpoint 2 genCounter recordingSend (some "post") "b" "p" 0).1.map
      (fun r => r.request_data) ≠
      (testEndpointSpecModel 2 genCounter recordingSend (some "post") "b" "p"
        0).1.map (fun r => r.request_data)) := by
  have h1 : (testEndpoint 2 genCounter recordingSend (some "post") "b" "p"
      0).1.map (fun r => r.request_data) =
      [some (.dict [("id", .intV 0)]), some (.dict [("id", .intV 0)])] := rfl
  have h2 : (testEndpointSpecModel 2 genCounter recordingSend (some "post")
      "b" "p" 0).1.map (fun r => r.request_data) =
      [some (.dict [("id", .intV 0)]), some (.dict [("id", .intV 1)])] := rfl
  refine ⟨h1, h2, ?_⟩
  rw [h1, h2]
  intro h
  simp at h

/-- C1 (amended): `test_endpoint` invokes `_generate_request_data` once per
endpoint, before the request loop (line 217); every one of the
`requests_per_endpoint` repetitions carries the same resolved body — the
`kwargs` built from the single `genData` result. -/
theorem c1_body_resolved_once_per_endpoint {σ : Type} (n : Nat)
    (genData : σ → Value × σ) (methodCfg : Option String)
    (base_url path : String) (s : σ) :
    ((testEndpoint n genData recordingSend methodCfg base_url path s).1.map
      (fun r => r.request_data)) =
      List.replicate n
        (bodyKwarg (pyUpper (methodCfg.getD "GET")) (genData s).1) := by
  rcases hgen : genData s with ⟨d, s1⟩
  unfold testEndpoint
  rw [hgen]
  exact aux_sendLoop_record _ _ _ n s1

/-- C2 (counterexample): `get_provider` on `$range{foo}` — a `$tag{...}`
string matching none of the recognized provider patterns — raises
`ValueError` (line 82 unpacks `map(int, params.split(','))`) instead of
returning a passthrough provider. -/
theorem c2_counterexample :
    getProviderStr "$range{foo}" =
      .error "ValueError: cannot unpack params into min,max" := rfl

/-- C2 (amended): for every `$tag{...}` whose word tag is none of `random`,
`range`, `lorem`, `get_provider` returns without raising a provider whose
invocation yields the original string unchanged.  (For unrecognized
`$range{p}` parameters the function instead raises — see the
counterexample.) -/
theorem c2_unrecognized_tag_passthru (tag p : String)
    (hw : ∀ c ∈ tag.data, isWordChar c = true) (hne : tag.data ≠ [])
    (hpb : '}' ∉ p.data)
    (hr : tag ≠ "random") (hg : tag ≠ "range") (hl : tag ≠ "lorem") :
    getProviderStr ("$" ++ tag ++ "\x7b" ++ p ++ "\x7d") =
      .ok (.passthru (.str ("$" ++ tag ++ "\x7b" ++ p ++ "\x7d"))) ∧
    ∀ o : RandOracle,
      invokeProvider o (.passthru (.str ("$" ++ tag ++ "\x7b" ++ p ++ "\x7d"))) =
        .str ("$" ++ tag ++ "\x7b" ++ p ++ "\x7d") :=
  ⟨aux_getProviderStr_tag tag p hw hne hpb hr hg hl, fun _ => rfl⟩

theorem c2_witness :
    getProviderStr ("$" ++ "custom" ++ "\x7b" ++ "abc" ++ "\x7d") =
      .ok (.passthru (.str ("$" ++ "custom" ++ "\x7b" ++ "abc" ++ "\x7d"))) ∧
    ∀ o : RandOracle,
      invokeProvider o
        (.passthru (.str ("$" ++ "custom" ++ "\x7b" ++ "abc" ++ "\x7d"))) =
        .str ("$" ++ "custom" ++ "\x7b" ++ "abc" ++ "\x7d") :=
  c2_unrecognized_tag_passthru "custom" "abc" (by decide) (by decide)
    (by decide) (by decide) (by decide) (by decide)

/-- C3 (counterexample): the `or`-chain skips falsy values.  With
`variables['x'] = 0` and `generators['x'] = 5`, resolving `"a${x}"`
substitutes `5` — not the `0` that the first table containing the key
holds. -/
theorem c3_counterexample :
    resolveVariables oracle0 cfgTruthy (.str "a${x}") = .ok (.str "a5") ∧
    resolveVariables oracle0 cfgTruthy (.str "a${x}") ≠ .ok (.str "a0") := by
  constructor
  · simp only [resolveVariables]
    rfl
  · simp only [resolveVariables]
    intro h
    rw [show resolveStr oracle0 cfgTruthy "a${x}" = .ok (.str "a5") from rfl]
      at h
    simp at h

/-- C3 (amended): for a string `pre ++ "${name}" ++ post` that does not
begin with `$` and has no stray `$` (strings beginning with `$` are handled
by the provider branch and bypass substitution), `_resolve_variables`
substitutes the placeholder by the rendered `or`-chain lookup, and that
chain picks the first TRUTHY value in the precedence order variables,
generators, datasets, ranges, skipping falsy entries (0, "", False, None)
as if absent, and keeping the placeholder when all four are missing or
falsy. -/
theorem c3_first_truthy_wins (o : RandOracle) (cfg : TestConfig)
    (pre name post : String)
    (hpre_ne : pre.data ≠ [])
    (hpre : ∀ c ∈ pre.data, c ≠ '$')
    (hname_ne : name.data ≠ [])
    (hname_rb : '}' ∉ name.data)
    (hpost : ∀ c ∈ post.data, c ≠ '$') :
    resolveVariables o cfg (.str (pre ++ "$\x7b" ++ name ++ "\x7d" ++ post)) =
      .ok (.str (pre ++ pyStr (lookupChain cfg name) ++ post)) ∧
    (∀ v, pyGet cfg.variables_ name = some v → pyTruthy v = true →
      lookupChain cfg name = v) ∧
    (∀ v, missOrFalsy (pyGet cfg.variables_ name) →
      pyGet cfg.generators name = some v → pyTruthy v = true →
      lookupChain cfg name = v) ∧
    (∀ v, missOrFalsy (pyGet cfg.variables_ name) →
      missOrFalsy (pyGet cfg.generators name) →
      pyGet cfg.datasets name = some v → pyTruthy v = true →
      lookupChain cfg name = v) ∧
    (∀ v, missOrFalsy (pyGet cfg.variables_ name) →
      missOrFalsy (pyGet cfg.generators name) →
      missOrFalsy (pyGet cfg.datasets name) →
      pyGet cfg.ranges name = some v → pyTruthy v = true →
      lookupChain cfg name = v) ∧
    (missOrFalsy (pyGet cfg.variables_ name) →
      missOrFalsy (pyGet cfg.generators name) →
      missOrFalsy (pyGet cfg.datasets name) →
      missOrFalsy (pyGet cfg.ranges name) →
      lookupChain cfg name = .str ("$\x7b" ++ name ++ "\x7d")) := by
  refine ⟨?_, ?_, ?_, ?_, ?_, ?_⟩
  · have := aux_resolveStr_subst o cfg pre name post hpre_ne hpre hname_ne
      hname_rb hpost
    simp only [resolveVariables]
    exact this
  · intro v h ht
    exact aux_pyOrOpt_truthy _ h ht
  · intro v h1 h ht
    unfold lookupChain
    rw [aux_pyOrOpt_skip _ h1]
    exact aux_pyOrOpt_truthy _ h ht
  · intro v h1 h2 h ht
    unfold lookupChain
    rw [aux_pyOrOpt_skip _ h1, aux_pyOrOpt_skip _ h2]
    exact aux_pyOrOpt_truthy _ h ht
  · intro v h1 h2 h3 h ht
    unfold lookupChain
    rw [aux_pyOrOpt_skip _ h1, aux_pyOrOpt_skip _ h2, aux_pyOrOpt_skip _ h3]
    exact aux_pyOrOpt_truthy _ h ht
  · intro h1 h2 h3 h4
    unfold lookupChain
    rw [aux_pyOrOpt_skip _ h1, aux_pyOrOpt_skip _ h2, aux_pyOrOpt_skip _ h3,
      aux_pyOrOpt_skip _ h4]

theorem c3_witness :
    resolveVariables oracle0 cfgW (.str ("a" ++ "$\x7b" ++ "x" ++ "\x7d" ++ "!")) =
      .ok (.str ("a" ++ pyStr (lookupChain cfgW "x") ++ "!")) ∧
    pyStr (lookupChain cfgW "x") = "7" ∧
    missOrFalsy (pyGet cfgW.variables_ "x") ∧
    pyGet cfgW.generators "x" = some (.intV 7) ∧
    lookupChain cfgW "x" = .intV 7 := by
  obtain ⟨h1, -, h3, -, -, -⟩ := c3_first_truthy_wins oracle0 cfgW "a" "x" "!"
    (by decide) (by decide) (by decide) (by decide) (by decide)
  refine ⟨h1, rfl, ?_, rfl, ?_⟩
  · intro v hv
    cases hv
    rfl
  · exact h3 (.intV 7) (fun v hv => by cases hv; rfl) rfl rfl

/-- C4 (counterexample): rounding can leave the requested interval.  The
template `$random{1.006,1.007}` parses to the float-range provider with
bounds `1.006` and `1.007`; the legal uniform draw `u = 1.006` (the oracle
returns the lower bound) produces `round(u, 2) = 1.01`, which violates
`x ≤ 1.007`. -/
theorem c4_counterexample :
    getProviderStr "$random{1.006,1.007}" =
      .ok (.randFloat2 (503/500) (1007/1000)) ∧
    invokeProvider oracle0 (.randFloat2 (503/500) (1007/1000)) =
      .ratV (101/100) ∧
    ((503 : ℚ)/500 ≤ oracle0.uniform (503/500) (1007/1000) ∧
      oracle0.uniform (503/500) (1007/1000) ≤ 1007/1000) ∧
    ¬((101 : ℚ)/100 ≤ 1007/1000) := by
  refine ⟨by with_unfolding_all rfl, by with_unfolding_all rfl,
    ⟨le_refl _, by norm_num [oracle0]⟩, by norm_num⟩

/-- C4 (amended): for every `$random{a,b}` template that parses to the
float-range provider, every produced value is `round(u, 2)` for a uniform
draw `u ∈ [a,b]`: it has at most 2 decimal places (an integer number of
hundredths) and lies within the interval WIDENED by half a hundredth on
each side, `a - 1/200 ≤ x ≤ b + 1/200` (the original `a ≤ x ≤ b` can fail
by up to `1/200` — see the counterexample). -/
theorem c4_randfloat_bounds (s : String) (lo hi : ℚ) (o : RandOracle)
    (_hp : getProviderStr s = .ok (.randFloat2 lo hi))
    (h1 : lo ≤ o.uniform lo hi) (h2 : o.uniform lo hi ≤ hi) :
    ∃ k : ℤ, invokeProvider o (.randFloat2 lo hi) = .ratV ((k : ℚ) / 100) ∧
      lo - 1/200 ≤ (k : ℚ) / 100 ∧ (k : ℚ) / 100 ≤ hi + 1/200 := by
  refine ⟨roundHalfEven (o.uniform lo hi * 100), rfl, ?_, ?_⟩
  · have hb := (aux_pyRound2_bounds (o.uniform lo hi)).1
    unfold pyRound2 at hb
    linarith
  · have hb := (aux_pyRound2_bounds (o.uniform lo hi)).2
    unfold pyRound2 at hb
    linarith

theorem c4_witness :
    ∃ k : ℤ, invokeProvider oracle0 (.randFloat2 (3/2) (5/2)) =
      .ratV ((k : ℚ) / 100) ∧
      (3 : ℚ)/2 - 1/200 ≤ (k : ℚ) / 100 ∧ (k : ℚ) / 100 ≤ (5 : ℚ)/2 + 1/200 :=
  c4_randfloat_bounds "$random{1.5,2.5}" (3/2) (5/2) oracle0
    (by with_unfolding_all rfl) (le_refl _) (by norm_num [oracle0])

/-- C5: the claim is right and the code is wrong.  `aggregate_results` on a
list containing the statistics of a run with `total_requests == 0` (as
`run_tests` emits for a run with no outcomes — the key is present, so the
`.get('total_requests', 1)` default does not apply) raises
`ZeroDivisionError` while computing the per-run summary success rate,
instead of reporting a 0 rate.  The combined rate (lines 458-461) IS
guarded; the per-run rate (line 441) is not. -/
theorem c5_zero_total_run_divzero :
    zeroRunStats.total_requests = 0 ∧
    aggregateResults [zeroRunStats] =
      .error "ZeroDivisionError: division by zero" :=
  ⟨rfl, rfl⟩

/-- C6 (counterexample): a string that is itself a provider template can
destroy an embedded `${name}` reference.  `"$lorem{1} ${missing}"` contains
`${missing}` with `missing` absent from all four (empty) tables, yet
`_resolve_variables` replaces the WHOLE string by the lorem provider's
output `"lorem"` — the placeholder is not left intact. -/
theorem c6_counterexample :
    (∀ n ∈ findVarRefs ("$lorem{1} ${missing}" : String).data,
      missAll cfgEmpty (String.mk n)) ∧
    resolveVariables oracle0 cfgEmpty (.str "$lorem{1} ${missing}") =
      .ok (.str "lorem") ∧
    resolveVariables oracle0 cfgEmpty (.str "$lorem{1} ${missing}") ≠
      .ok (.str "$lorem{1} ${missing}") := by
  refine ⟨by decide, ?_, ?_⟩
  · simp only [resolveVariables]
    rfl
  · simp only [resolveVariables]
    intro h
    rw [show resolveStr oracle0 cfgEmpty "$lorem{1} ${missing}" =
      .ok (.str "lorem") from rfl] at h
    simp at h

/-- C6 (amended): for every string whose `${name}` references all miss the
four lookup tables, `_resolve_variables` returns the string unchanged and
does not error — provided the string is not itself a dynamic provider
template (it does not start with `$`, or it starts with the
variable-reference prefix `${`, which falls through every provider pattern
as a passthrough). -/
theorem c6_missing_ref_intact (o : RandOracle) (cfg : TestConfig) (s : String)
    (hmiss : ∀ n ∈ findVarRefs s.data, missAll cfg (String.mk n))
    (hshape : startsDollar s = false ∨ ∃ rest, s.data = '$' :: '{' :: rest) :
    resolveVariables o cfg (.str s) = .ok (.str s) := by
  have := aux_resolveStr_miss o cfg s hmiss hshape
  simp only [resolveVariables]
  exact this

theorem c6_witness :
    resolveVariables oracle0 cfgEmpty (.str "hi ${missing_var}") =
      .ok (.str "hi ${missing_var}") ∧
    resolveVariables oracle0 cfgEmpty (.str "${missing_var}") =
      .ok (.str "${missing_var}") :=
  ⟨c6_missing_ref_intact oracle0 cfgEmpty "hi ${missing_var}" (by decide)
      (Or.inl (by decide)),
    c6_missing_ref_intact oracle0 cfgEmpty "${missing_var}" (by decide)
      (Or.inr ⟨"missing_var\x7d".data, rfl⟩)⟩

/-- C7: a run whose outcomes all failed reports `min_time`, `max_time` and
`avg_time` all 0 — the `if response_times else 0` guards of `run_tests` —
with no exception (the function is total) and no NaN (`ℚ` arithmetic never
reaches the `0/0` branch). -/
theorem c7_all_failed_zero_stats (results : List TestResult)
    (h : ∀ r ∈ results, r.success = false) :
    (computeRunStats results).min_time = 0 ∧
    (computeRunStats results).max_time = 0 ∧
    (computeRunStats results).avg_time = 0 := by
  have ht := aux_allFailed_times results h
  unfold computeRunStats
  simp [ht]

theorem c7_witness :
    (computeRunStats [failedResult]).min_time = 0 ∧
    (computeRunStats [failedResult]).max_time = 0 ∧
    (computeRunStats [failedResult]).avg_time = 0 :=
  c7_all_failed_zero_stats [failedResult] (by decide)

/-- C8: `aggregate_results` on nonempty input (each run with a nonzero
total, so the per-run summary divisions are defined) sums the three
counters, concatenates every run's latency samples into one flat population
in run order, recomputes min/max/mean over that combined population (not an
average of per-run averages), and computes the combined success rate from
the combined counters. -/
theorem c8_aggregate_combined (runs : List RunStats)
    (hne : runs ≠ [])
    (hnz : ∀ st ∈ runs, st.total_requests ≠ 0) :
    ∃ agg, aggregateResults runs = .ok (some agg) ∧
      agg.total_requests = (runs.map (fun st => st.total_requests)).sum ∧
      agg.successful_requests =
        (runs.map (fun st => st.successful_requests)).sum ∧
      agg.failed_requests = (runs.map (fun st => st.failed_requests)).sum ∧
      agg.response_times = (runs.map (fun st => st.response_times)).flatten ∧
      agg.avg_time = (if !agg.response_times.isEmpty then
        agg.response_times.sum / (agg.response_times.length : ℚ) else 0) ∧
      agg.min_time = (if !agg.response_times.isEmpty then
        pyMin agg.response_times else 0) ∧
      agg.max_time = (if !agg.response_times.isEmpty then
        pyMax agg.response_times else 0) ∧
      agg.success_rate = (if 0 < agg.total_requests then
        (agg.successful_requests : ℚ) / (agg.total_requests : ℚ) * 100
        else 0) := by
  unfold aggregateResults
  rw [if_neg (by simpa [List.isEmpty_iff] using hne)]
  rw [aux_aggLoop_ok runs hnz]
  exact ⟨_, rfl, rfl, rfl, rfl, rfl, rfl, rfl, rfl, rfl⟩

theorem c8_witness :
    ∃ agg, aggregateResults [runAllPass, runAllFail] = .ok (some agg) ∧
      agg.total_requests = 20 ∧ agg.successful_requests = 10 ∧
      agg.success_rate = 50 := by
  obtain ⟨agg, h1, h2, h3, -, -, -, -, -, h9⟩ :=
    c8_aggregate_combined [runAllPass, runAllFail] (by simp) (by decide)
  have h2' : agg.total_requests = 20 := by rw [h2]; rfl
  have h3' : agg.successful_requests = 10 := by rw [h3]; rfl
  refine ⟨agg, h1, h2', h3', ?_⟩
  rw [h9, h2', h3']
  norm_num

/-- C9 (counterexample): `_resolve_variables` does not return a structure
for EVERY input — a leaf that is a `$range` template with unparsable
parameters propagates `get_provider`'s `ValueError` out of the recursion,
so no structure is returned at all. -/
theorem c9_counterexample :
    resolveVariables oracle0 cfgEmpty (.list [.str "$range{foo}"]) =
      .error "ValueError: cannot unpack params into min,max" := by
  simp only [resolveVariables, resolveElems]
  rfl

/-- C9 (amended): whenever `_resolve_variables` returns (no provider
template raised), the result is faithful to the input's shape: mappings map
to mappings with the same keys in the same order, sequences to sequences of
the same length componentwise, provider-template leaves to scalars,
substitution strings to strings, and every other leaf — non-template
strings and non-string scalars — to itself unchanged.  (The Lean embedding
is pure, mirroring that the Python builds new dict/list comprehensions and
leaves the input unmutated.) -/
theorem c9_shape_preserved (o : RandOracle) (cfg : TestConfig) (v w : Value)
    (h : resolveVariables o cfg v = .ok w) : faithfulV v w = true :=
  aux_resolve_faithfulV o cfg v w h

theorem c9_witness :
    resolveVariables oracle0 cfgEmpty
      (.dict [("a", .str "hello ${missing}"),
              ("b", .list [.intV 3, .str "$custom{x}"])]) =
      .ok (.dict [("a", .str "hello ${missing}"),
                  ("b", .list [.intV 3, .str "$custom{x}"])]) ∧
    faithfulV
      (.dict [("a", .str "hello ${missing}"),
              ("b", .list [.intV 3, .str "$custom{x}"])])
      (.dict [("a", .str "hello ${missing}"),
              ("b", .list [.intV 3, .str "$custom{x}"])]) = true := by
  have hres : resolveVariables oracle0 cfgEmpty
      (.dict [("a", .str "hello ${missing}"),
              ("b", .list [.intV 3, .str "$custom{x}"])]) =
      .ok (.dict [("a", .str "hello ${missing}"),
                  ("b", .list [.intV 3, .str "$custom{x}"])]) := by
    simp only [resolveVariables, resolveFields, resolveElems]
    rfl
  exact ⟨hres, c9_shape_preserved oracle0 cfgEmpty _ _ hres⟩

/-- C10: `_generate_url` joins base and path with exactly one `/` at the
junction — the stripped base ends without `/`, the stripped path starts
without `/` — and is invariant under a trailing `/` on the base or a
leading `/` on the path. -/
theorem c10_url_join (base_url path : String) :
    generateUrl (base_url ++ "/") path = generateUrl base_url path ∧
    generateUrl base_url ("/" ++ path) = generateUrl base_url path ∧
    (generateUrl base_url path).data =
      stripTrailSlash base_url.data ++ '/' :: stripLeadSlash path.data ∧
    (∀ c, (stripTrailSlash base_url.data).getLast? = some c → c ≠ '/') ∧
    (∀ c, (stripLeadSlash path.data).head? = some c → c ≠ '/') := by
  refine ⟨?_, ?_, ?_, fun c h => aux_getLast_stripTrail _ c h,
    fun c h => aux_head_stripLead _ c h⟩
  · unfold generateUrl
    rw [show (base_url ++ "/").data = base_url.data ++ ['/'] from rfl,
      aux_stripTrail_snoc]
  · unfold generateUrl
    rw [show ("/" ++ path).data = '/' :: path.data from rfl,
      aux_stripLead_cons]
  · unfold generateUrl
    show (stripTrailSlash base_url.data ++ ['/']) ++
      stripLeadSlash path.data = _
    simp [List.append_assoc]

theorem c10_witness :
    generateUrl ("http://a" ++ "/") "p" = generateUrl "http://a" "p" ∧
    generateUrl "http://a" ("/" ++ "p") = generateUrl "http://a" "p" ∧
    (generateUrl "http://a" "p").data =
      stripTrailSlash ("http://a" : String).data ++ '/' ::
        stripLeadSlash ("p" : String).data ∧
    (∀ c, (stripTrailSlash ("http://a" : String).data).getLast? = some c →
      c ≠ '/') ∧
    (∀ c, (stripLeadSlash ("p" : String).data).head? = some c → c ≠ '/') :=
  c10_url_join "http://a" "p"

end PerfRunner
